import Mathlib

/-!
Verification of the road-network routing and map-matching engine of
sfdata_wrangler (src/sfdata_wrangler/HwyNetwork.py).

The embedding is a shallow translation of the Python source:
* floating point numbers become exact rationals (ℚ);
* `+inf` entries of the scipy skim matrix become `none` (type `Option ℚ`);
* Python exceptions (KeyError on dict lookup, IndexError, ZeroDivisionError)
  become `none` results of `Option`-valued functions;
* the scipy call `sp.sparse.csgraph.shortest_path` (external library code)
  is modelled by an executable Floyd-Warshall computation over the same
  CSR data, with the scipy conventions: distance matrix diagonal is 0,
  absent entries are `+inf` (`none`), predecessor sentinel is -9999, and
  duplicate (row, col) pairs handed to `csr_matrix` have their costs summed.
-/

set_option maxRecDepth 8000

namespace SfData

/-- A directed road link, as used by `initializeShortestPaths` and the
allocator: identifier, end-point node ids, length in coordinate units and
free-flow travel time in minutes (the source calls
`link.getLengthInCoordinateUnits()` and `link.getFreeFlowTTInMin()`). -/
structure Link where
  id : Nat
  startNodeId : Nat
  endNodeId : Nat
  lengthUnits : ℚ
  freeFlowMin : ℚ
deriving DecidableEq

/-- The network handed to `HwyNetwork`: the iteration order of
`net.iterNodes()` and `net.iterRoadLinks()` is the list order. -/
structure Network where
  nodes : List Nat
  links : List Link
deriving DecidableEq

/-- `mm.path_inference.structures.State`: a candidate (link, offset)
location, with the optional GPS distance recorded by `project`. -/
structure State where
  link_id : Nat
  offset : ℚ
  distFromGPS : Option ℚ := none
deriving DecidableEq

/-- `mm.path_inference.structures.Path`: start state, ordered link ids,
end state. -/
structure Path where
  start : State
  links : List Nat
  end_ : State
deriving DecidableEq

/-- `mm.path_inference.structures.StateCollection` (only the `states`
field is used by the source). -/
structure StateCollection where
  states : List State
deriving DecidableEq

/-- `self.net.getLinkForId(link_id)`: the dta network lookup; `none`
models the exception raised for an unknown id. -/
def getLinkForId (net : Network) (lid : Nat) : Option Link :=
  net.links.find? (fun l => l.id == lid)

/-- `self.net.getLinkForNodeIdPair(a, b)`: first link joining the node
pair. -/
def getLinkForNodeIdPair (net : Network) (a b : Nat) : Option Link :=
  net.links.find? (fun l => l.startNodeId == a && l.endNodeId == b)

/-- Sequential loop over a list where each step can fail (a Python loop
whose body may raise): stops at the first failure. -/
def seqMap : List α → (α → Option β) → Option (List β)
  | [], _ => some []
  | a :: as, f => do
    let b ← f a
    let bs ← seqMap as f
    some (b :: bs)

/-- Addition on travel costs where `none` is `+inf`. -/
def infAdd : Option ℚ → Option ℚ → Option ℚ
  | some a, some b => some (a + b)
  | _, _ => none

/-- Minimum on travel costs where `none` is `+inf`. -/
def infMin : Option ℚ → Option ℚ → Option ℚ
  | some a, some b => some (min a b)
  | some a, none => some a
  | none, b => b

/-- Strict comparison on travel costs where `none` is `+inf`. -/
def infLt : Option ℚ → Option ℚ → Bool
  | some a, some b => a < b
  | some _, none => true
  | none, _ => false

/-- STEP 1 of `initializeShortestPaths`: the `n2i` dictionary built by the
loop `for node in self.net.iterNodes(): self.n2i[node_id] = i; i += 1`
(later duplicate ids overwrite earlier ones, as in a Python dict). -/
def buildN2IGo : List Nat → Nat → (Nat → Option Nat) → (Nat → Option Nat)
  | [], _, d => d
  | nid :: rest, i, d => buildN2IGo rest (i + 1) (fun x => if x = nid then some i else d x)

/-- The finished `n2i` dictionary. -/
def buildN2I (nodes : List Nat) : Nat → Option Nat := buildN2IGo nodes 0 (fun _ => none)

/-- The initial dense distance matrix that scipy derives from
`csr_matrix((costs2, (anodes2, bnodes2)))`: diagonal 0, summed duplicate
entries, `+inf` (`none`) where no link exists. -/
def initSkim (edges : List (Nat × Nat × ℚ)) : Nat → Nat → Option ℚ :=
  fun i j =>
    if i = j then some 0
    else
      let es := edges.filter (fun e => e.1 == i && e.2.1 == j)
      if es.isEmpty then none else some ((es.map (fun e => e.2.2)).sum)

/-- The initial predecessor matrix: `i` where a direct link exists,
sentinel -9999 on the diagonal and where no link exists. -/
def initPred (edges : List (Nat × Nat × ℚ)) : Nat → Nat → Int :=
  fun i j =>
    if i ≠ j ∧ edges.any (fun e => e.1 == i && e.2.1 == j) then (i : Int) else -9999

/-- One Floyd-Warshall relaxation round through intermediate node `k`,
updating both the distance and the predecessor matrix. -/
def fwStep (MP : (Nat → Nat → Option ℚ) × (Nat → Nat → Int)) (k : Nat) :
    (Nat → Nat → Option ℚ) × (Nat → Nat → Int) :=
  (fun i j => infMin (MP.1 i j) (infAdd (MP.1 i k) (MP.1 k j)),
   fun i j => if infLt (infAdd (MP.1 i k) (MP.1 k j)) (MP.1 i j) then MP.2 k j else MP.2 i j)

/-- Model of `sp.sparse.csgraph.shortest_path(graph, return_predecessors=True)`
on the `num_nodes` × `num_nodes` CSR graph. -/
def shortestPathFW (num_nodes : Nat) (edges : List (Nat × Nat × ℚ)) :
    (Nat → Nat → Option ℚ) × (Nat → Nat → Int) :=
  (List.range num_nodes).foldl fwStep (initSkim edges, initPred edges)

/-- The phantom-index invariant for the Floyd-Warshall state: index `t`
never gets a finite distance or a real predecessor, in either direction,
against any other index. -/
def PhantomInv (t : Nat) (MP : (Nat → Nat → Option ℚ) × (Nat → Nat → Int)) : Prop :=
  ∀ i, i ≠ t → MP.1 i t = none ∧ MP.1 t i = none ∧ MP.2 i t = -9999 ∧ MP.2 t i = -9999

/-- The state a `HwyNetwork` object carries after `initializeShortestPaths`:
the network, both index dictionaries, the matrix dimension and the skim and
predecessor matrices. -/
structure Hwy where
  net : Network
  n2i : Nat → Option Nat
  i2n : Nat → Option Nat
  numNodes : Nat
  skim : Nat → Nat → Option ℚ
  pred : Nat → Nat → Int

/-- `HwyNetwork.initializeShortestPaths`: builds `n2i`/`i2n`, sets
`num_nodes = i + 1` (one more than the number of nodes), collects one
(a, b, cost) triple per road link with cost `60.0 * link.getFreeFlowTTInMin()`
(a KeyError — `none` — if a link mentions an unknown node), and runs the
scipy all-pairs shortest-path routine. -/
def initializeShortestPaths (net : Network) : Option Hwy := do
  let n2i := buildN2I net.nodes
  let i2n : Nat → Option Nat := fun i => net.nodes[i]?
  let num_nodes := net.nodes.length + 1
  let edges ← seqMap net.links (fun link => do
      let a ← n2i link.startNodeId
      let b ← n2i link.endNodeId
      some (a, b, 60 * link.freeFlowMin))
  let sp := shortestPathFW num_nodes edges
  some ⟨net, n2i, i2n, num_nodes, sp.1, sp.2⟩

/-- The backward walk of `getShortestPathNodeSequence`:
`while (j != start): path.append(self.i2n[j]); j = self.pred[start, j]`.
Fuel bounds the loop; a negative predecessor entry is the -9999 sentinel,
whose `i2n` lookup would raise (`none`). -/
def traceBack (hwy : Hwy) (start : Nat) : Nat → Nat → Option (List Nat)
  | 0, _ => none
  | fuel + 1, j =>
    if j = start then some []
    else do
      let nid ← hwy.i2n j
      let p := hwy.pred start j
      if p < 0 then none
      else do
        let rest ← traceBack hwy start fuel p.toNat
        some (nid :: rest)

/-- `HwyNetwork.getShortestPathNodeSequence`: returns the single-element
placeholder list `[None]` when `skim[start, end]` is infinite, otherwise
the reversed backward walk (ending with the start node's id). -/
def getShortestPathNodeSequence (hwy : Hwy) (startNode endNode : Nat) :
    Option (List (Option Nat)) := do
  let s ← hwy.n2i startNode
  let e ← hwy.n2i endNode
  if hwy.skim s e = none then
    some [none]
  else do
    let walk ← traceBack hwy s (hwy.numNodes + 1) e
    let sid ← hwy.i2n s
    some (((walk ++ [sid]).reverse).map some)

/-- `HwyNetwork.getPaths`: single-link path when both states share a link;
the placeholder `[None]` when the skim cost is infinite; otherwise the
link sequence `[s1.link] ++ interior ++ [s2.link]` recovered from the node
sequence. -/
def getPaths (hwy : Hwy) (s1 s2 : State) : Option (List (Option Path)) :=
  if s1.link_id = s2.link_id then
    some [some ⟨s1, [s1.link_id], s2⟩]
  else do
    let l1 ← getLinkForId hwy.net s1.link_id
    let l2 ← getLinkForId hwy.net s2.link_id
    let startNode := l1.endNodeId
    let endNode := l2.startNodeId
    let si ← hwy.n2i startNode
    let ei ← hwy.n2i endNode
    if hwy.skim si ei = none then
      some [none]
    else do
      let nodeSeq ← getShortestPathNodeSequence hwy startNode endNode
      let interior ← seqMap (nodeSeq.zip nodeSeq.tail) (fun p => do
          let a ← p.1
          let b ← p.2
          let link ← getLinkForNodeIdPair hwy.net a b
          some link.id)
      some [some ⟨s1, s1.link_id :: (interior ++ [s2.link_id]), s2⟩]

/-- The four accumulators of `getPathsBetweenCollections`:
`trans1`, `paths`, `trans2` and `num_paths`. -/
structure PbcAcc where
  trans1 : List (Nat × Nat)
  paths : List (Option Path)
  trans2 : List (Nat × Nat)
  num_paths : Nat
deriving DecidableEq

/-- The inner `for path in ps` loop body of `getPathsBetweenCollections`:
appends a transition pair to each of `trans1`/`trans2` and the path itself
to `paths`, advancing `num_paths`, for EVERY element of `ps` (including a
`None` placeholder). -/
def pbcAppend (i1 i2 : Nat) (ps : List (Option Path)) (acc : PbcAcc) : PbcAcc :=
  ps.foldl (fun a path =>
    ⟨a.trans1 ++ [(i1, a.num_paths)], a.paths ++ [path],
     a.trans2 ++ [(a.num_paths, i2)], a.num_paths + 1⟩) acc

/-- The `for i2 in range(n2)` loop of `getPathsBetweenCollections`. -/
def pbcInner (hwy : Hwy) (i1 : Nat) (s1 : State) : Nat → List State → PbcAcc → Option PbcAcc
  | _, [], acc => some acc
  | i2, s2 :: rest, acc => do
    let ps ← getPaths hwy s1 s2
    pbcInner hwy i1 s1 (i2 + 1) rest (pbcAppend i1 i2 ps acc)

/-- The `for i1 in range(n1)` loop of `getPathsBetweenCollections`. -/
def pbcOuter (hwy : Hwy) (states2 : List State) : Nat → List State → PbcAcc → Option PbcAcc
  | _, [], acc => some acc
  | i1, s1 :: rest, acc => do
    let acc2 ← pbcInner hwy i1 s1 0 states2 acc
    pbcOuter hwy states2 (i1 + 1) rest acc2

/-- `HwyNetwork.getPathsBetweenCollections`: returns
`(trans1, paths, trans2)`. -/
def getPathsBetweenCollections (hwy : Hwy) (sc1 sc2 : StateCollection) :
    Option (List (Nat × Nat) × List (Option Path) × List (Nat × Nat)) := do
  let acc ← pbcOuter hwy sc2.states 0 sc1.states ⟨[], [], [], 0⟩
  some (acc.trans1, acc.paths, acc.trans2)

/-- The `HwyNetwork` offset-ratio lookup: `state.offset / link length`; `none`
models the lookup error for an unknown link and the ZeroDivisionError for
a zero-length link. -/
def getLinkOffsetRatio (net : Network) (state : State) : Option ℚ := do
  let link ← getLinkForId net state.link_id
  let dist := link.lengthUnits
  if dist = 0 then none
  else some (state.offset / dist)

/-- `HwyNetwork.getPathTraversalRatios`: starts from an all-ones list, then
subtracts the start offset ratio from the first entry and `1 - end offset
ratio` from the last entry (both adjustments hit the same entry for a
single-link path); `none` models the IndexError on an empty link list. -/
def getPathTraversalRatios (net : Network) (path : Path) : Option (List ℚ) :=
  if path.links.isEmpty then none
  else do
    let ratios0 := List.replicate path.links.length (1 : ℚ)
    let rA ← getLinkOffsetRatio net path.start
    let ratios1 := ratios0.set 0 (ratios0.getD 0 0 - rA)
    let rB ← getLinkOffsetRatio net path.end_
    let n := path.links.length
    some (ratios1.set (n - 1) (ratios1.getD (n - 1) 0 - (1 - rB)))

/-- `HwyNetwork.getPathFreeFlowTTInSeconds`: sum over the path's links of
`60.0 * link.getFreeFlowTTInMin() * traversalRatios[i]`. -/
def getPathFreeFlowTTInSeconds (net : Network) (path : Path) : Option ℚ := do
  let traversalRatios ← getPathTraversalRatios net path
  let tts ← seqMap (path.links.zip traversalRatios) (fun p => do
      let link ← getLinkForId net p.1
      some (60 * link.freeFlowMin * p.2))
  some tts.sum

/-- `HwyNetwork.allocatePathTravelTimeToLinks`: distributes the observed
time `end_time - start_time` over the path's links, equally when the total
free-flow time is below 0.1 seconds and proportionally to the free-flow
contributions otherwise; returns `(path.links, traversalRatios, link_tt)`. -/
def allocatePathTravelTimeToLinks (net : Network) (path : Path) (start_time end_time : ℚ) :
    Option (List Nat × List ℚ × List ℚ) := do
  let traversalRatios ← getPathTraversalRatios net path
  let tot_tt := end_time - start_time
  let tot_ff ← getPathFreeFlowTTInSeconds net path
  let link_tt ← seqMap (path.links.zip traversalRatios) (fun p =>
      if tot_ff < 1 / 10 then
        some (tot_tt * (1 / (path.links.length : ℚ)))
      else do
        let link ← getLinkForId net p.1
        some (tot_tt * ((60 * link.freeFlowMin * p.2) / tot_ff)))
  some (path.links, traversalRatios, link_tt)

/-! ### Concrete networks used as test inputs -/

/-- A network with no nodes and no links. -/
def emptyNet : Network := ⟨[], []⟩

/-- A network with nodes but no links. -/
def noLinkNet : Network := ⟨[1, 2], []⟩

/-- The three-node scenario of the spec: A=1, B=2, C=3; link 10 is A→B
(length 1000, free flow 1 min = 60 s), link 20 is B→C (length 1000, free
flow 2 min = 120 s). -/
def net3 : Network := ⟨[1, 2, 3], [⟨10, 1, 2, 1000, 1⟩, ⟨20, 2, 3, 1000, 2⟩]⟩

/-- A disconnected network: link 10 joins 1→2, link 20 joins 3→4, and no
link leaves node 2 or enters node 3, so 2 to 3 is unreachable. -/
def net2 : Network := ⟨[1, 2, 3, 4], [⟨10, 1, 2, 100, 1⟩, ⟨20, 3, 4, 100, 1⟩]⟩

/-- A one-link network used for the traversal-ratio counterexample. -/
def net9 : Network := ⟨[1, 2], [⟨10, 1, 2, 100, 1⟩]⟩

/-- A three-link chain whose links all have zero free-flow time. -/
def netFF : Network := ⟨[1, 2, 3, 4], [⟨11, 1, 2, 100, 0⟩, ⟨12, 2, 3, 100, 0⟩, ⟨13, 3, 4, 100, 0⟩]⟩

/-- Junk value used only to extract the `some` payload of
`initializeShortestPaths` on the concrete networks below. -/
def defaultHwy : Hwy := ⟨emptyNet, fun _ => none, fun _ => none, 0, fun _ _ => none, fun _ _ => -9999⟩

/-- The initialized engine on `net3`. -/
def hwy3 : Hwy := (initializeShortestPaths net3).getD defaultHwy

/-- The initialized engine on `net2`. -/
def hwy2 : Hwy := (initializeShortestPaths net2).getD defaultHwy

/-- The initialized engine on `netFF`. -/
def hwyFF : Hwy := (initializeShortestPaths netFF).getD defaultHwy

/-- Start state of the three-node scenario: halfway along link 10. -/
def s31 : State := ⟨10, 500, none⟩

/-- End state of the three-node scenario: halfway along link 20. -/
def s32 : State := ⟨20, 500, none⟩

/-- The resolved two-link path of the three-node scenario. -/
def path3 : Path := ⟨s31, [10, 20], s32⟩

/-- The three-link stationary path on `netFF`. -/
def pathFF : Path := ⟨⟨11, 0, none⟩, [11, 12, 13], ⟨13, 100, none⟩⟩

/-- A single-link path on `net9` whose start offset (80) is beyond its end
offset (20); both offsets are valid, inside [0, link length]. -/
def path9 : Path := ⟨⟨10, 80, none⟩, [10], ⟨10, 20, none⟩⟩

/-! ### Helper lemmas about the sequential loops -/

theorem optBind_eq_some {x : Option α} {f : α → Option β} {b : β} :
    (x >>= f) = some b ↔ ∃ a, x = some a ∧ f a = some b := by
  cases x with
  | none =>
    constructor
    · intro h; exact Option.noConfusion h
    · rintro ⟨a, ha, _⟩; exact Option.noConfusion ha
  | some a =>
    constructor
    · intro h; exact ⟨a, rfl, h⟩
    · rintro ⟨a2, ha2, hf⟩; injection ha2 with ha2; subst ha2; exact hf

theorem some_bind_eq (a : α) (f : α → Option β) : (some a >>= f) = f a := rfl

theorem seqMap_length {l : List α} {f : α → Option β} {ys : List β}
    (h : seqMap l f = some ys) : ys.length = l.length := by
  induction l generalizing ys with
  | nil =>
    simp only [seqMap, Option.some.injEq] at h
    subst h; rfl
  | cons a as ih =>
    simp only [seqMap, optBind_eq_some, Option.some.injEq] at h
    obtain ⟨b, hb, bs, hbs, hys⟩ := h
    subst hys
    simp [ih hbs]

theorem seqMap_const (l : List α) (c : β) :
    seqMap l (fun _ => some c) = some (List.replicate l.length c) := by
  induction l with
  | nil => rfl
  | cons a as ih => simp [seqMap, ih, List.replicate_succ]

theorem seqMap_congr_map {l : List α} {g : α → Option β} {h : β → γ} {f : α → Option γ}
    (hfg : ∀ a ∈ l, f a = (g a).bind (fun b => some (h b)))
    {ys : List β} (hg : seqMap l g = some ys) :
    seqMap l f = some (ys.map h) := by
  induction l generalizing ys with
  | nil =>
    simp only [seqMap, Option.some.injEq] at hg
    subst hg; rfl
  | cons a as ih =>
    simp only [seqMap, optBind_eq_some, Option.some.injEq] at hg
    obtain ⟨b, hb, bs, hbs, hys⟩ := hg
    subst hys
    have hfa := hfg a (by simp)
    simp only [seqMap, hfa, hb, some_bind_eq, Option.some_bind,
      ih (fun x hx => hfg x (by simp [hx])) hbs, List.map_cons]

theorem seqMap_mem {l : List α} {f : α → Option β} {ys : List β}
    (h : seqMap l f = some ys) {y : β} (hy : y ∈ ys) : ∃ a ∈ l, f a = some y := by
  induction l generalizing ys with
  | nil =>
    simp only [seqMap, Option.some.injEq] at h
    subst h; simp at hy
  | cons a as ih =>
    simp only [seqMap, optBind_eq_some, Option.some.injEq] at h
    obtain ⟨b, hb, bs, hbs, hys⟩ := h
    subst hys
    rcases List.mem_cons.mp hy with rfl | hmem
    · exact ⟨a, by simp, hb⟩
    · obtain ⟨x, hx, hfx⟩ := ih hbs hmem
      exact ⟨x, by simp [hx], hfx⟩

theorem sum_map_scale (l : List ℚ) (c d : ℚ) :
    (l.map (fun b => c * (b / d))).sum = c * (l.sum / d) := by
  induction l with
  | nil => simp
  | cons x xs ih =>
    simp only [List.map_cons, List.sum_cons, ih]
    ring

/-! ### Helper lemmas about traversal ratios -/

theorem replicate_getD_last (k : Nat) : (List.replicate (k + 1) (1 : ℚ)).getD k 0 = 1 := by
  induction k with
  | zero => rfl
  | succ k ih => simpa [List.replicate_succ] using ih

theorem replicate_set_last (k : Nat) (x : ℚ) :
    (List.replicate (k + 1) (1 : ℚ)).set k x = List.replicate k 1 ++ [x] := by
  induction k with
  | zero => rfl
  | succ k ih =>
    rw [List.replicate_succ, List.set_cons_succ, ih, List.replicate_succ, List.cons_append]

theorem ratios_length {net : Network} {p : Path} {rs : List ℚ}
    (h : getPathTraversalRatios net p = some rs) :
    p.links ≠ [] ∧ rs.length = p.links.length := by
  unfold getPathTraversalRatios at h
  split at h
  · exact absurd h (by simp)
  · next hne =>
    refine ⟨by simpa [List.isEmpty_iff] using hne, ?_⟩
    simp only [optBind_eq_some, Option.some.injEq] at h
    obtain ⟨rA, hA, rB, hB, hrs⟩ := h
    subst hrs
    simp

theorem ratios_shape {net : Network} {p : Path} {rs : List ℚ}
    (h : getPathTraversalRatios net p = some rs) :
    ∃ rA rB, getLinkOffsetRatio net p.start = some rA ∧
      getLinkOffsetRatio net p.end_ = some rB ∧
      ((p.links.length = 1 ∧ rs = [1 - rA - (1 - rB)]) ∨
       (∃ m, p.links.length = m + 2 ∧
          rs = (1 - rA) :: (List.replicate m 1 ++ [1 - (1 - rB)]))) := by
  unfold getPathTraversalRatios at h
  split at h
  · exact absurd h (by simp)
  · next hne =>
    simp only [optBind_eq_some, Option.some.injEq] at h
    obtain ⟨rA, hA, rB, hB, hrs⟩ := h
    refine ⟨rA, rB, hA, hB, ?_⟩
    have hlen : p.links ≠ [] := by simpa [List.isEmpty_iff] using hne
    obtain ⟨a, as⟩ := List.exists_cons_of_ne_nil hlen
    obtain ⟨as, hlinks⟩ := as
    rw [hlinks] at hrs
    cases as with
    | nil =>
      left
      refine ⟨by simp [hlinks], ?_⟩
      subst hrs
      rfl
    | cons a2 as2 =>
      right
      refine ⟨as2.length, by simp [hlinks], ?_⟩
      subst hrs
      simp only [List.length_cons, Nat.add_sub_cancel]
      rw [List.replicate_succ, List.getD_cons_zero, List.set_cons_zero,
        List.getD_cons_succ, List.set_cons_succ, replicate_getD_last, replicate_set_last]

theorem offsetRatio_bounds {net : Network} {s : State} {r : ℚ} {l : Link}
    (hr : getLinkOffsetRatio net s = some r)
    (hl : getLinkForId net s.link_id = some l)
    (h0 : 0 ≤ s.offset) (h1 : s.offset ≤ l.lengthUnits) (hpos : 0 < l.lengthUnits) :
    0 ≤ r ∧ r ≤ 1 := by
  unfold getLinkOffsetRatio at hr
  rw [hl] at hr
  simp only [some_bind_eq] at hr
  rw [if_neg hpos.ne'] at hr
  obtain rfl : s.offset / l.lengthUnits = r := by simpa using hr
  exact ⟨div_nonneg h0 hpos.le, (div_le_one hpos).mpr h1⟩

/-! ### Helper lemmas about the allocator -/

theorem alloc_spec {net : Network} {p : Path} {st et : ℚ} {ls : List Nat} {rs tts : List ℚ}
    (h : allocatePathTravelTimeToLinks net p st et = some (ls, rs, tts)) :
    ls = p.links ∧ getPathTraversalRatios net p = some rs ∧
      tts.length = p.links.length ∧ p.links ≠ [] ∧ tts.sum = et - st := by
  unfold allocatePathTravelTimeToLinks at h
  simp only [optBind_eq_some, Option.some.injEq] at h
  obtain ⟨rs0, hrs0, F, hF, tts0, htts0, heq⟩ := h
  injection heq with hls heq
  injection heq with hrs htts
  subst hls; subst hrs; subst htts
  obtain ⟨hne, hrslen⟩ := ratios_length hrs0
  have hn : rs0.length = p.links.length := hrslen
  have hziplen : (p.links.zip rs0).length = p.links.length := by
    simp [List.length_zip, hn]
  have hlen0 : tts0.length = p.links.length := by
    rw [seqMap_length htts0, hziplen]
  refine ⟨rfl, hrs0, hlen0, hne, ?_⟩
  have hnz : ((p.links.length : ℚ)) ≠ 0 :=
    Nat.cast_ne_zero.mpr (by simpa [List.length_eq_zero] using hne)
  unfold getPathFreeFlowTTInSeconds at hF
  simp only [optBind_eq_some, Option.some.injEq] at hF
  obtain ⟨rs1, hrs1, ffs, hffs, hFsum⟩ := hF
  rw [hrs0] at hrs1
  injection hrs1 with hrs1
  subst hrs1
  by_cases hc : F < 1 / 10
  · simp only [if_pos hc] at htts0
    rw [seqMap_const] at htts0
    injection htts0 with htts0
    subst htts0
    rw [hziplen, List.sum_replicate, nsmul_eq_mul]
    field_simp
  · simp only [if_neg hc] at htts0
    have hF0 : (0 : ℚ) < F := lt_of_lt_of_le (by norm_num) (not_lt.mp hc)
    have hmap := @seqMap_congr_map (Nat × ℚ) ℚ ℚ (p.links.zip rs0)
      (fun q => (getLinkForId net q.1).bind (fun link => some (60 * link.freeFlowMin * q.2)))
      (fun b => (et - st) * (b / F))
      (fun q => (getLinkForId net q.1).bind
        (fun link => some ((et - st) * ((60 * link.freeFlowMin * q.2) / F))))
      (fun a _ => by cases hgl : getLinkForId net a.1 <;> simp [hgl]) ffs hffs
    have h2 : some tts0 =
        some (List.map (fun b => (et - st) * (b / F)) ffs) := htts0.symm.trans hmap
    injection h2 with h2
    subst h2
    rw [sum_map_scale, hFsum, div_self hF0.ne', mul_one]

theorem alloc_equal_split {net : Network} {p : Path} {st et F : ℚ}
    {ls : List Nat} {rs tts : List ℚ}
    (hff : getPathFreeFlowTTInSeconds net p = some F) (hc : F < 1 / 10)
    (h : allocatePathTravelTimeToLinks net p st et = some (ls, rs, tts)) :
    tts = List.replicate p.links.length ((et - st) * (1 / (p.links.length : ℚ))) := by
  unfold allocatePathTravelTimeToLinks at h
  simp only [optBind_eq_some, Option.some.injEq] at h
  obtain ⟨rs0, hrs0, F1, hF1, tts0, htts0, heq⟩ := h
  injection heq with hls heq
  injection heq with hrs htts
  subst hls; subst hrs; subst htts
  rw [hff] at hF1
  injection hF1 with hF1
  subst hF1
  simp only [if_pos hc] at htts0
  rw [seqMap_const] at htts0
  injection htts0 with htts0
  subst htts0
  obtain ⟨hne, hrslen⟩ := ratios_length hrs0
  simp [List.length_zip, hrslen]

/-! ### Claims about the travel-time allocator -/

/-- C1: for every path and every pair of timestamps with endTime ≥
startTime, the per-link travel times returned by
`allocatePathTravelTimeToLinks` sum exactly to
totalObserved = endTime − startTime (the model computes in exact rational
arithmetic, so the sum is exact, well within the 1e-6 tolerance), in both
the proportional branch and the near-zero free-flow branch. -/
theorem allocations_sum_to_total {net : Network} {p : Path} {st et : ℚ}
    {ls : List Nat} {rs tts : List ℚ}
    (h : allocatePathTravelTimeToLinks net p st et = some (ls, rs, tts))
    (hle : st ≤ et) : tts.sum = et - st :=
  (alloc_spec h).2.2.2.2

/-- Witness for C1: the three-node scenario, 30 + 60 = 90 − 0. -/
theorem allocations_sum_to_total_w : ([30, 60] : List ℚ).sum = 90 - 0 :=
  @allocations_sum_to_total net3 path3 0 90 [10, 20] [1/2, 1/2] [30, 60]
    (by with_unfolding_all decide) (by norm_num)

/-- C7: when the path's total free-flow seconds is below 0.1, the
allocator splits totalObserved equally: every link receives
totalObserved × (1/N), N the number of links. -/
theorem stationary_equal_split {net : Network} {p : Path} {st et F : ℚ}
    {ls : List Nat} {rs tts : List ℚ}
    (hff : getPathFreeFlowTTInSeconds net p = some F) (hc : F < 1 / 10)
    (h : allocatePathTravelTimeToLinks net p st et = some (ls, rs, tts)) :
    tts = List.replicate p.links.length ((et - st) * (1 / (p.links.length : ℚ))) :=
  alloc_equal_split hff hc h

/-- Witness for C7: the three-link path with zero free-flow weights and 60
observed seconds gives every link 20 seconds. -/
theorem stationary_equal_split_w :
    ([20, 20, 20] : List ℚ) = List.replicate 3 ((60 - 0) * (1 / (3 : ℚ))) :=
  @stationary_equal_split netFF pathFF 0 60 0 [11, 12, 13] [1, 1, 1] [20, 20, 20]
    (by with_unfolding_all decide) (by norm_num) (by with_unfolding_all decide)

/-- C3: the concrete three-node scenario: the resolver returns exactly the
two-link sequence [link 10, link 20] with no interior links, the traversal
ratios are [0.5, 0.5], and allocating 90 observed seconds yields 30 s on
link 10 (A→B) and 60 s on link 20 (B→C). -/
theorem three_node_scenario :
    getPaths hwy3 s31 s32 = some [some path3] ∧
    getPathTraversalRatios net3 path3 = some [1/2, 1/2] ∧
    allocatePathTravelTimeToLinks net3 path3 0 90 =
      some ([10, 20], [1/2, 1/2], [30, 60]) := by
  with_unfolding_all decide

/-- C4 counterexample: calling the allocator with endTime (0) before
startTime (90) is NOT rejected: it returns normally, with negative
per-link allocations. -/
theorem negative_time_not_rejected_cex :
    allocatePathTravelTimeToLinks net3 path3 90 0 =
      some ([10, 20], [1/2, 1/2], [-30, -60]) ∧
    ((0 : ℚ) < 90) ∧ ((-30 : ℚ) < 0) := by
  with_unfolding_all decide

/-- C4 amended: the allocator has no endTime < startTime guard: whenever
it succeeds with endTime < startTime it returns silently, the allocations
sum to the negative totalObserved, and at least one allocation is
negative. -/
theorem negative_time_gives_negative_allocation {net : Network} {p : Path} {st et : ℚ}
    {ls : List Nat} {rs tts : List ℚ}
    (h : allocatePathTravelTimeToLinks net p st et = some (ls, rs, tts))
    (hlt : et < st) : tts.sum < 0 ∧ ∃ t ∈ tts, t < 0 := by
  obtain ⟨-, -, hlen, hne, hsum⟩ := alloc_spec h
  have hneg : tts.sum < 0 := by rw [hsum]; linarith
  refine ⟨hneg, ?_⟩
  by_contra hall
  push_neg at hall
  exact absurd (List.sum_nonneg hall) (not_le.mpr hneg)

/-- Witness for the amended C4 at the three-node scenario run backwards. -/
theorem negative_time_gives_negative_allocation_w :
    (([-30, -60] : List ℚ).sum < 0) ∧ ∃ t ∈ ([-30, -60] : List ℚ), t < 0 :=
  @negative_time_gives_negative_allocation net3 path3 90 0 [10, 20] [1/2, 1/2] [-30, -60]
    (by with_unfolding_all decide) (by norm_num)

/-- C8: two states on the same link produce the single-link path, and for
the identical state used as both endpoints the single traversal ratio is
1 − startOffsetRatio − (1 − endOffsetRatio) = 0, so the path's free-flow
time contribution is zero. -/
theorem same_link_single_path {hwy : Hwy} {s1 s2 s : State} {l : Link}
    (hEq : s1.link_id = s2.link_id)
    (hl : getLinkForId hwy.net s.link_id = some l)
    (hd : l.lengthUnits ≠ 0) :
    getPaths hwy s1 s2 = some [some ⟨s1, [s1.link_id], s2⟩] ∧
    getPathTraversalRatios hwy.net ⟨s, [s.link_id], s⟩ = some [0] ∧
    getPathFreeFlowTTInSeconds hwy.net ⟨s, [s.link_id], s⟩ = some 0 := by
  have hr : getLinkOffsetRatio hwy.net s = some (s.offset / l.lengthUnits) := by
    unfold getLinkOffsetRatio
    rw [hl]
    simp only [some_bind_eq]
    rw [if_neg hd]
  have hrat : getPathTraversalRatios hwy.net ⟨s, [s.link_id], s⟩ = some [0] := by
    simp [getPathTraversalRatios, hr]
  refine ⟨?_, hrat, ?_⟩
  · unfold getPaths
    rw [if_pos hEq]
  · simp [getPathFreeFlowTTInSeconds, hrat, seqMap, hl]

/-- Witness for C8 on the three-node network's link 10. -/
theorem same_link_single_path_w :
    getPaths hwy3 ⟨10, 100, none⟩ ⟨10, 700, none⟩ =
      some [some ⟨⟨10, 100, none⟩, [10], ⟨10, 700, none⟩⟩] ∧
    getPathTraversalRatios hwy3.net ⟨⟨10, 500, none⟩, [10], ⟨10, 500, none⟩⟩ = some [0] ∧
    getPathFreeFlowTTInSeconds hwy3.net ⟨⟨10, 500, none⟩, [10], ⟨10, 500, none⟩⟩ = some 0 :=
  @same_link_single_path hwy3 ⟨10, 100, none⟩ ⟨10, 700, none⟩ ⟨10, 500, none⟩
    ⟨10, 1, 2, 1000, 1⟩ rfl (by with_unfolding_all decide) (by norm_num)

/-- C9 counterexample: on the single-link path `path9` both offsets are
valid — 80 and 20 both lie in [0, 100], the link's length — yet the
traversal ratio computed by `getPathTraversalRatios` is −3/5 ∉ [0, 1]. -/
theorem single_link_negative_ratio_cex :
    getPathTraversalRatios net9 path9 = some [-(3/5)] ∧
    (0 : ℚ) ≤ 80 ∧ (80 : ℚ) ≤ 100 ∧ (0 : ℚ) ≤ 20 ∧ (20 : ℚ) ≤ 100 ∧
    ¬((0 : ℚ) ≤ -(3/5)) := by
  with_unfolding_all decide

/-- C9 amended: for a path of two or more links over valid states every
traversal ratio lies in [0, 1]; for a single-link path the combined ratio
equals endOffsetRatio − startOffsetRatio, which only lies in [−1, 1] and
is negative when the end offset precedes the start offset. -/
theorem traversal_ratio_bounds_amended {net : Network} {p : Path} {rs : List ℚ}
    {lS lE : Link}
    (hrs : getPathTraversalRatios net p = some rs)
    (hlS : getLinkForId net p.start.link_id = some lS)
    (h0S : 0 ≤ p.start.offset) (h1S : p.start.offset ≤ lS.lengthUnits)
    (hpS : 0 < lS.lengthUnits)
    (hlE : getLinkForId net p.end_.link_id = some lE)
    (h0E : 0 ≤ p.end_.offset) (h1E : p.end_.offset ≤ lE.lengthUnits)
    (hpE : 0 < lE.lengthUnits) :
    (2 ≤ p.links.length → ∀ r ∈ rs, 0 ≤ r ∧ r ≤ 1) ∧
    (p.links.length = 1 → ∀ r ∈ rs, -1 ≤ r ∧ r ≤ 1) := by
  obtain ⟨rA, rB, hA, hB, hshape⟩ := ratios_shape hrs
  obtain ⟨hA0, hA1⟩ := offsetRatio_bounds hA hlS h0S h1S hpS
  obtain ⟨hB0, hB1⟩ := offsetRatio_bounds hB hlE h0E h1E hpE
  constructor
  · intro h2 r hr
    rcases hshape with ⟨h1, -⟩ | ⟨m, hm, hrs2⟩
    · omega
    · subst hrs2
      rcases List.mem_cons.mp hr with rfl | hr2
      · constructor <;> linarith
      · rcases List.mem_append.mp hr2 with hrep | hone
        · have hr1 := List.eq_of_mem_replicate hrep
          subst hr1
          norm_num
        · have hr1 : r = 1 - (1 - rB) := by simpa using hone
          subst hr1
          constructor <;> linarith
  · intro h1 r hr
    rcases hshape with ⟨-, hrs2⟩ | ⟨m, hm, -⟩
    · subst hrs2
      have hr1 : r = 1 - rA - (1 - rB) := by simpa using hr
      subst hr1
      constructor <;> linarith
    · omega

/-- Witness for the amended C9 on the two-link scenario path: its first
traversal ratio 1/2 lies in [0, 1]. -/
theorem traversal_ratio_bounds_amended_w : 0 ≤ (1/2 : ℚ) ∧ (1/2 : ℚ) ≤ 1 :=
  (@traversal_ratio_bounds_amended net3 path3 [1/2, 1/2]
    ⟨10, 1, 2, 1000, 1⟩ ⟨20, 2, 3, 1000, 2⟩
    (by with_unfolding_all decide) (by with_unfolding_all decide)
    (by with_unfolding_all decide) (by with_unfolding_all decide)
    (by with_unfolding_all decide) (by with_unfolding_all decide)
    (by with_unfolding_all decide) (by with_unfolding_all decide)
    (by with_unfolding_all decide)).1 (by decide) (1/2) (List.mem_cons_self _ _)

/-! ### Claims about the shortest-path engine -/

/-- C5 counterexample: on `net2` the node pair (2, 3) is unreachable —
skim[n2i 2, n2i 3] is infinite — and `getShortestPathNodeSequence` returns
the single-element placeholder list holding a null, not an explicit
tagged "no path" outcome. -/
theorem no_path_placeholder_cex :
    hwy2.n2i 2 = some 1 ∧ hwy2.n2i 3 = some 2 ∧ hwy2.skim 1 2 = none ∧
    getShortestPathNodeSequence hwy2 2 3 = some [none] := by
  refine ⟨by with_unfolding_all decide, by with_unfolding_all decide,
    by with_unfolding_all decide, by with_unfolding_all decide⟩

/-- C5 amended: when skim[start][end] is infinite the function returns the
placeholder list [None] (a single-element list holding a null); for
reachable pairs it returns the node sequence obtained by walking
pred[start][*] backward from the end index and reversing it. -/
theorem node_sequence_walk_or_placeholder {hwy : Hwy} {startNode endNode s e : Nat}
    (hs : hwy.n2i startNode = some s) (he : hwy.n2i endNode = some e) :
    (hwy.skim s e = none →
       getShortestPathNodeSequence hwy startNode endNode = some [none]) ∧
    (hwy.skim s e ≠ none →
       getShortestPathNodeSequence hwy startNode endNode =
         (traceBack hwy s (hwy.numNodes + 1) e) >>= fun walk =>
           (hwy.i2n s) >>= fun sid => some (((walk ++ [sid]).reverse).map some)) := by
  unfold getShortestPathNodeSequence
  rw [hs]
  simp only [some_bind_eq]
  rw [he]
  simp only [some_bind_eq]
  constructor
  · intro hinf; rw [if_pos hinf]
  · intro hninf; rw [if_neg hninf]

/-- Witness for the amended C5: the unreachable branch on `hwy2` and the
reachable branch on `hwy3`. -/
theorem node_sequence_walk_or_placeholder_w :
    getShortestPathNodeSequence hwy2 2 3 = some [none] ∧
    getShortestPathNodeSequence hwy3 1 3 =
      ((traceBack hwy3 0 (hwy3.numNodes + 1) 2) >>= fun walk =>
        (hwy3.i2n 0) >>= fun sid => some (((walk ++ [sid]).reverse).map some)) :=
  ⟨(@node_sequence_walk_or_placeholder hwy2 2 3 1 2 (by with_unfolding_all decide)
      (by with_unfolding_all decide)).1 (by with_unfolding_all decide),
   (@node_sequence_walk_or_placeholder hwy3 1 3 0 2 (by with_unfolding_all decide)
      (by with_unfolding_all decide)).2 (by with_unfolding_all decide)⟩

/-! ### Claims about initialization -/

/-- C6 counterexample: constructing the routing index from the empty
network (zero nodes and zero links) and from a node-only network with zero
links succeeds — no configuration error is surfaced; the empty network
still gets num_nodes = 1. -/
theorem empty_network_init_succeeds_cex :
    (initializeShortestPaths emptyNet).isSome = true ∧
    ((initializeShortestPaths emptyNet).getD defaultHwy).numNodes = 1 ∧
    (initializeShortestPaths noLinkNet).isSome = true := by
  refine ⟨by with_unfolding_all decide, by with_unfolding_all decide,
    by with_unfolding_all decide⟩

/-- C6 amended: initialization performs no emptiness check: on any network
with zero links (with or without nodes) it completes normally with
num_nodes = N + 1. -/
theorem zero_links_init_succeeds (net : Network) (h : net.links = []) :
    ∃ hwy, initializeShortestPaths net = some hwy ∧
      hwy.numNodes = net.nodes.length + 1 := by
  unfold initializeShortestPaths
  rw [h]
  exact ⟨_, rfl, rfl⟩

/-- Witness for the amended C6 at the empty network. -/
theorem zero_links_init_succeeds_w :
    ∃ hwy, initializeShortestPaths emptyNet = some hwy ∧
      hwy.numNodes = emptyNet.nodes.length + 1 :=
  zero_links_init_succeeds emptyNet rfl

/-! ### Claims about the candidate path expander -/

theorem getPaths_len {hwy : Hwy} {s1 s2 : State} {ps : List (Option Path)}
    (h : getPaths hwy s1 s2 = some ps) : ps.length = 1 := by
  unfold getPaths at h
  split at h
  · injection h with h; subst h; rfl
  · obtain ⟨l1, hl1, h⟩ := optBind_eq_some.mp h
    obtain ⟨l2, hl2, h⟩ := optBind_eq_some.mp h
    obtain ⟨si, hsi, h⟩ := optBind_eq_some.mp h
    obtain ⟨ei, hei, h⟩ := optBind_eq_some.mp h
    split at h
    · injection h with h; subst h; rfl
    · obtain ⟨nodeSeq, hns, h⟩ := optBind_eq_some.mp h
      obtain ⟨interior, hint, h⟩ := optBind_eq_some.mp h
      injection h with h
      subst h
      rfl

theorem pbcAppend_counts (i1 i2 : Nat) (ps : List (Option Path)) (acc : PbcAcc) :
    (pbcAppend i1 i2 ps acc).trans1.length = acc.trans1.length + ps.length ∧
    (pbcAppend i1 i2 ps acc).paths.length = acc.paths.length + ps.length ∧
    (pbcAppend i1 i2 ps acc).trans2.length = acc.trans2.length + ps.length := by
  induction ps generalizing acc with
  | nil => exact ⟨rfl, rfl, rfl⟩
  | cons p ps ih =>
    have hstep : pbcAppend i1 i2 (p :: ps) acc =
        pbcAppend i1 i2 ps ⟨acc.trans1 ++ [(i1, acc.num_paths)], acc.paths ++ [p],
          acc.trans2 ++ [(acc.num_paths, i2)], acc.num_paths + 1⟩ := rfl
    obtain ⟨h1, h2, h3⟩ := ih ⟨acc.trans1 ++ [(i1, acc.num_paths)], acc.paths ++ [p],
      acc.trans2 ++ [(acc.num_paths, i2)], acc.num_paths + 1⟩
    rw [hstep]
    refine ⟨?_, ?_, ?_⟩ <;>
      simp only [h1, h2, h3, List.length_append, List.length_cons, List.length_nil] <;>
      omega

theorem pbcInner_counts {hwy : Hwy} {i1 : Nat} {s1 : State} {l : List State}
    {i2 : Nat} {acc acc' : PbcAcc}
    (h : pbcInner hwy i1 s1 i2 l acc = some acc') :
    acc'.trans1.length = acc.trans1.length + l.length ∧
    acc'.paths.length = acc.paths.length + l.length ∧
    acc'.trans2.length = acc.trans2.length + l.length := by
  induction l generalizing i2 acc with
  | nil =>
    simp only [pbcInner, Option.some.injEq] at h
    subst h
    exact ⟨rfl, rfl, rfl⟩
  | cons s2 rest ih =>
    simp only [pbcInner, optBind_eq_some] at h
    obtain ⟨ps, hps, h⟩ := h
    have hlen1 := getPaths_len hps
    obtain ⟨h1, h2, h3⟩ := ih h
    obtain ⟨a1, a2, a3⟩ := pbcAppend_counts i1 i2 ps acc
    refine ⟨?_, ?_, ?_⟩ <;> simp only [List.length_cons] <;> omega

theorem pbcOuter_counts {hwy : Hwy} {l2 l1 : List State} {i1 : Nat} {acc acc' : PbcAcc}
    (h : pbcOuter hwy l2 i1 l1 acc = some acc') :
    acc'.trans1.length = acc.trans1.length + l1.length * l2.length ∧
    acc'.paths.length = acc.paths.length + l1.length * l2.length ∧
    acc'.trans2.length = acc.trans2.length + l1.length * l2.length := by
  induction l1 generalizing i1 acc with
  | nil =>
    simp only [pbcOuter, Option.some.injEq] at h
    subst h
    simp
  | cons s1 rest ih =>
    simp only [pbcOuter, optBind_eq_some] at h
    obtain ⟨acc2, hacc2, h⟩ := h
    obtain ⟨h1, h2, h3⟩ := ih h
    obtain ⟨a1, a2, a3⟩ := pbcInner_counts hacc2
    refine ⟨?_, ?_, ?_⟩ <;>
      rw [List.length_cons, Nat.succ_mul] <;> omega

/-- C2 counterexample: on the disconnected network `net2` the only state
pair is unreachable — getPaths yields the placeholder [None] — yet
`getPathsBetweenCollections` does NOT skip it: the returned paths list
holds a None entry and both trans1 and trans2 received a transition
tuple for that pair. -/
theorem unreachable_pair_not_skipped_cex :
    hwy2.skim 1 2 = none ∧
    getPaths hwy2 ⟨10, 50, none⟩ ⟨20, 50, none⟩ = some [none] ∧
    getPathsBetweenCollections hwy2 ⟨[⟨10, 50, none⟩]⟩ ⟨[⟨20, 50, none⟩]⟩ =
      some ([(0, 0)], [none], [(0, 0)]) := by
  refine ⟨by with_unfolding_all decide, by with_unfolding_all decide,
    by with_unfolding_all decide⟩

/-- C2 amended: unreachable pairs are NOT skipped: every pair of states —
reachable or not — appends exactly one entry to the paths list (a None
placeholder when unreachable) and one tuple to each of trans1 and trans2,
so all three returned lists have length n1 × n2. -/
theorem every_pair_appends_one_entry {hwy : Hwy} {sc1 sc2 : StateCollection}
    {t1 t2 : List (Nat × Nat)} {ps : List (Option Path)}
    (h : getPathsBetweenCollections hwy sc1 sc2 = some (t1, ps, t2)) :
    ps.length = sc1.states.length * sc2.states.length ∧
    t1.length = ps.length ∧ t2.length = ps.length := by
  unfold getPathsBetweenCollections at h
  simp only [optBind_eq_some, Option.some.injEq] at h
  obtain ⟨acc, hacc, heq⟩ := h
  obtain ⟨h1, h2, h3⟩ := pbcOuter_counts hacc
  injection heq with e1 heq
  injection heq with e2 e3
  subst e1; subst e2; subst e3
  simp only [List.length_nil, Nat.zero_add] at h1 h2 h3
  exact ⟨h2, by omega, by omega⟩

/-- Witness for the amended C2 on the one-pair disconnected scenario. -/
theorem every_pair_appends_one_entry_w :
    ([none] : List (Option Path)).length = 1 * 1 ∧
    ([(0, 0)] : List (Nat × Nat)).length = ([none] : List (Option Path)).length ∧
    ([(0, 0)] : List (Nat × Nat)).length = ([none] : List (Option Path)).length :=
  @every_pair_appends_one_entry hwy2 ⟨[⟨10, 50, none⟩]⟩ ⟨[⟨20, 50, none⟩]⟩
    [(0, 0)] [(0, 0)] [none] (by with_unfolding_all decide)

/-! ### Claim about the matrix dimension (C10) -/

theorem buildN2IGo_not_mem {l : List Nat} {x : Nat} (hx : x ∉ l) :
    ∀ (i : Nat) (d : Nat → Option Nat), buildN2IGo l i d x = d x := by
  induction l with
  | nil => intro i d; rfl
  | cons nid rest ih =>
    intro i d
    have hx2 : x ∉ rest := fun hm => hx (List.mem_cons_of_mem _ hm)
    have hxn : x ≠ nid := fun he => hx (he ▸ List.mem_cons_self _ _)
    exact (ih hx2 (i + 1) _).trans (if_neg hxn)

theorem buildN2IGo_mem {l : List Nat} {x : Nat} (hx : x ∈ l) :
    ∀ (i : Nat) (d : Nat → Option Nat), ∃ k, k < l.length ∧
      buildN2IGo l i d x = some (i + k) ∧ l[k]? = some x := by
  induction l with
  | nil => cases hx
  | cons nid rest ih =>
    intro i d
    by_cases hmem : x ∈ rest
    · obtain ⟨k, hk, heq, hget⟩ := ih hmem (i + 1) _
      refine ⟨k + 1, by simpa using hk, ?_, by simpa using hget⟩
      rw [show buildN2IGo (nid :: rest) i d x =
        buildN2IGo rest (i + 1) (fun y => if y = nid then some i else d y) x from rfl, heq]
      congr 1
      omega
    · have hxn : x = nid := by
        rcases List.mem_cons.mp hx with h | h
        · exact h
        · exact absurd h hmem
      refine ⟨0, by simp, ?_, by simp [hxn]⟩
      rw [show buildN2IGo (nid :: rest) i d x =
        buildN2IGo rest (i + 1) (fun y => if y = nid then some i else d y) x from rfl,
        buildN2IGo_not_mem hmem, if_pos hxn]
      rfl

theorem buildN2I_some {nodes : List Nat} {x j : Nat}
    (h : buildN2I nodes x = some j) : j < nodes.length ∧ nodes[j]? = some x := by
  by_cases hmem : x ∈ nodes
  · obtain ⟨k, hk, heq, hget⟩ := buildN2IGo_mem hmem 0 (fun _ => none)
    have h2 : some (0 + k) = some j := heq.symm.trans h
    injection h2 with h2
    subst h2
    exact ⟨by omega, by simpa using hget⟩
  · have h2 := buildN2IGo_not_mem hmem 0 (fun _ => none)
    have h3 : (none : Option Nat) = some j := h2.symm.trans h
    exact Option.noConfusion h3

theorem buildN2I_mem {nodes : List Nat} {x : Nat} (hx : x ∈ nodes) :
    ∃ j, buildN2I nodes x = some j := by
  obtain ⟨k, hk, heq, -⟩ := buildN2IGo_mem hx 0 (fun _ => none)
  exact ⟨0 + k, heq⟩

theorem infAdd_none (x : Option ℚ) : infAdd x none = none := by cases x <;> rfl

theorem infAdd_none_left (x : Option ℚ) : infAdd none x = none := rfl

theorem infMin_none_left (x : Option ℚ) : infMin none x = x := rfl

theorem infLt_none_left (x : Option ℚ) : infLt none x = false := rfl

theorem fwStep_phantom {t : Nat} {MP : (Nat → Nat → Option ℚ) × (Nat → Nat → Int)}
    (h : PhantomInv t MP) (k : Nat) : PhantomInv t (fwStep MP k) := by
  intro i hi
  obtain ⟨hit, hti, pit, pti⟩ := h i hi
  by_cases hk : k = t
  · subst hk
    refine ⟨?_, ?_, ?_, ?_⟩ <;>
      simp [fwStep, hit, hti, pit, pti, infAdd_none, infAdd_none_left,
        infMin_none_left, infLt_none_left]
  · obtain ⟨hkt, htk, pkt, ptk⟩ := h k hk
    refine ⟨?_, ?_, ?_, ?_⟩ <;>
      simp [fwStep, hit, hti, pit, pti, hkt, htk, pkt, ptk, infAdd_none,
        infAdd_none_left, infMin_none_left, infLt_none_left]

theorem foldl_phantom {t : Nat} (ks : List Nat)
    {MP : (Nat → Nat → Option ℚ) × (Nat → Nat → Int)} (h : PhantomInv t MP) :
    PhantomInv t (ks.foldl fwStep MP) := by
  induction ks generalizing MP with
  | nil => exact h
  | cons k ks ih => exact ih (fwStep_phantom h k)

theorem initPhantom {edges : List (Nat × Nat × ℚ)} {t : Nat}
    (hb : ∀ e ∈ edges, e.1 ≠ t ∧ e.2.1 ≠ t) :
    PhantomInv t (initSkim edges, initPred edges) := by
  intro i hi
  refine ⟨?_, ?_, ?_, ?_⟩
  · simp only [initSkim, if_neg hi]
    have hf : edges.filter (fun e => e.1 == i && e.2.1 == t) = [] :=
      List.filter_eq_nil_iff.mpr (fun e he => by
        obtain ⟨-, h2⟩ := hb e he
        simp [h2])
    simp [hf]
  · simp only [initSkim, if_neg (Ne.symm hi)]
    have hf : edges.filter (fun e => e.1 == t && e.2.1 == i) = [] :=
      List.filter_eq_nil_iff.mpr (fun e he => by
        obtain ⟨h1, -⟩ := hb e he
        simp [h1])
    simp [hf]
  · simp only [initPred]
    rw [if_neg]
    rintro ⟨-, hany⟩
    rw [List.any_eq_true] at hany
    obtain ⟨e, he, hee⟩ := hany
    obtain ⟨-, h2⟩ := hb e he
    simp only [Bool.and_eq_true, beq_iff_eq] at hee
    exact h2 hee.2
  · simp only [initPred]
    rw [if_neg]
    rintro ⟨-, hany⟩
    rw [List.any_eq_true] at hany
    obtain ⟨e, he, hee⟩ := hany
    obtain ⟨h1, -⟩ := hb e he
    simp only [Bool.and_eq_true, beq_iff_eq] at hee
    exact h1 hee.1

theorem init_edges_spec {net : Network} {hwy : Hwy}
    (h : initializeShortestPaths net = some hwy) :
    hwy.net = net ∧ hwy.n2i = buildN2I net.nodes ∧
    hwy.numNodes = net.nodes.length + 1 ∧
    ∃ edges, (∀ e ∈ edges, e.1 < net.nodes.length ∧ e.2.1 < net.nodes.length) ∧
      hwy.skim = (shortestPathFW (net.nodes.length + 1) edges).1 ∧
      hwy.pred = (shortestPathFW (net.nodes.length + 1) edges).2 := by
  unfold initializeShortestPaths at h
  simp only [optBind_eq_some, Option.some.injEq] at h
  obtain ⟨edges, hedges, hhwy⟩ := h
  subst hhwy
  refine ⟨rfl, rfl, rfl, edges, ?_, rfl, rfl⟩
  intro e he
  obtain ⟨link, hlink, hfe⟩ := seqMap_mem hedges he
  simp only [optBind_eq_some, Option.some.injEq] at hfe
  obtain ⟨a, ha, b, hb2, hee⟩ := hfe
  subst hee
  exact ⟨(buildN2I_some ha).1, (buildN2I_some hb2).1⟩

/-- C10: after `initializeShortestPaths` on a network with N ≥ 1 distinct
nodes, the node-to-index mapping assigns dense indices 0..N−1 (every node
gets an index below N, every index below N is some node's index), but
num_nodes is N+1, so the skim and pred matrices are (N+1)×(N+1): the extra
index N corresponds to no node and is unreachable from and to every real
node (infinite skim cost and sentinel predecessor in both directions). -/
theorem phantom_node_matrix {net : Network} {hwy : Hwy}
    (h : initializeShortestPaths net = some hwy)
    (hnd : net.nodes.Nodup) (hN : 1 ≤ net.nodes.length) :
    hwy.numNodes = net.nodes.length + 1 ∧
    (∀ x ∈ net.nodes, ∃ j, j < net.nodes.length ∧ hwy.n2i x = some j) ∧
    (∀ j, j < net.nodes.length → ∃ x ∈ net.nodes, hwy.n2i x = some j) ∧
    (∀ i, i < net.nodes.length →
       hwy.skim i net.nodes.length = none ∧
       hwy.skim net.nodes.length i = none ∧
       hwy.pred i net.nodes.length = -9999 ∧
       hwy.pred net.nodes.length i = -9999) := by
  obtain ⟨hnet, hn2i, hnum, edges, hbound, hskim, hpred⟩ := init_edges_spec h
  refine ⟨hnum, ?_, ?_, ?_⟩
  · intro x hx
    obtain ⟨j, hj⟩ := buildN2I_mem hx
    exact ⟨j, (buildN2I_some hj).1, by rw [hn2i]; exact hj⟩
  · intro j hj
    have hx : net.nodes[j] ∈ net.nodes := List.getElem_mem hj
    obtain ⟨k, hk⟩ := buildN2I_mem hx
    obtain ⟨hklt, hgetk⟩ := buildN2I_some hk
    have hjk : j = k := List.getElem?_inj hj hnd
      (by rw [List.getElem?_eq_getElem hj, hgetk])
    refine ⟨net.nodes[j], hx, ?_⟩
    rw [← hjk] at hk
    rw [hn2i]
    exact hk
  · intro i hilt
    have hbt : ∀ e ∈ edges, e.1 ≠ net.nodes.length ∧ e.2.1 ≠ net.nodes.length :=
      fun e he => ⟨Nat.ne_of_lt (hbound e he).1, Nat.ne_of_lt (hbound e he).2⟩
    have hinv := foldl_phantom (List.range (net.nodes.length + 1)) (initPhantom hbt)
    obtain ⟨c1, c2, c3, c4⟩ := hinv i (Nat.ne_of_lt hilt)
    rw [hskim, hpred]
    exact ⟨c1, c2, c3, c4⟩

/-- Witness for C10 on the three-node network: num_nodes is 4 and the
phantom index 3 is disconnected in the skim and pred matrices. -/
theorem phantom_node_matrix_w :
    hwy3.numNodes = 3 + 1 ∧ hwy3.skim 0 3 = none ∧ hwy3.skim 3 0 = none ∧
    hwy3.pred 0 3 = -9999 ∧ hwy3.pred 3 0 = -9999 := by
  obtain ⟨h1, -, -, h4⟩ := @phantom_node_matrix net3 hwy3 rfl (by decide) (by decide)
  obtain ⟨c1, c2, c3, c4⟩ := h4 0 (by decide)
  exact ⟨h1, c1, c2, c3, c4⟩


end SfData
